import Mathlib

/-!
Verification of the MontePy/mcnpy core against its specification.

Each section embeds one part of the source shallowly in Lean:
Python integers become `Nat`/`Int`, exact numeric values become `Rat`,
fallible code returns `Except`/`Option`, and raised Python exceptions
are explicit error values.  Definitions follow the source files under
`mcnpy/` and `montepy/`; where the deciding code lives in modules that
are not part of the source snapshot (the syntax-node classes and the
constants module), a definition is marked `Modelled from the spec:` and
follows the specification text instead.
-/

unseal Rat.add Rat.mul Rat.inv Rat.sub Rat.ofScientific

namespace MontePy

/-- The kinds of Python runtime errors the embedded code can raise.
`nameError` models evaluation reaching an unbound identifier,
`attributeError` an access to a nonexistent attribute/method,
`typeError` a `TypeError` raise or an unsupported operand,
`malformedInput` the library's `MalformedInputError`, and
`unsupported` the library's `UnsupportedFeature` error. -/
inductive PyErr where
  | nameError
  | attributeError
  | typeError
  | malformedInput
  | unsupported
  | inexactRatio
  deriving DecidableEq, Repr

deriving instance DecidableEq for Except

/-! ## Isotope ZAID parsing (`montepy/data_inputs/isotope.py`)

`Isotope._parse_zaid` splits a ZAID integer into `Z = ZAID // 1000` and
`A = ZAID % 1000`, consults the bounding curve to decide whether the pair
is a plausible ground-state isotope, and otherwise decodes the metastable
convention `A' = A - 300 - 100*m` for `m` in 1..4, raising `ValueError`
when no such `m` fits.  `get_full_zaid` rebuilds
`Z*1000 + A + (300 + 100*m)` for metastable isomers. -/

/-- The bounding-curve table `Isotope._BOUNDING_CURVE`. -/
def boundingCurve : List (Int × Int) :=
  [(17, 52), (35, 101), (54, 150), (76, 203), (96, 251), (118, 296)]

/-- `is_probably_an_isotope(Z, A)` from `Isotope._parse_zaid`: find the first
bounding pair whose `lim_Z` is at least `Z`; the pair accepts iff `A` is at
most its `lim_A`; beyond the last pair everything is accepted.  `A` is an
`Int` because the Python caller can pass a negative candidate mass. -/
def isProbablyAnIsotope (Z A : Int) : Bool :=
  match (boundingCurve.find? fun p => Z ≤ p.1) with
  | some p => A ≤ p.2
  | none => true

/-- The result record assembled by `Isotope._parse_zaid`: atomic number,
mass number (possibly adjusted for metastability), and isomeric state. -/
structure IsoData where
  Z : Nat
  A : Int
  metaState : Option Nat
  deriving DecidableEq, Repr

/-- `Isotope._parse_zaid`.  Returns `none` where the source raises
`ValueError` ("Only isomeric state 1 - 4 are allowed"). -/
def parseZaid (zaid : Nat) : Option IsoData :=
  if isProbablyAnIsotope (zaid / 1000) ((zaid % 1000 : Nat) : Int) then
    some ⟨zaid / 1000, ((zaid % 1000 : Nat) : Int), none⟩
  else
    match (List.range' 1 4).find?
        (fun (i : Nat) => isProbablyAnIsotope (zaid / 1000)
          (((zaid % 1000 : Nat) : Int) - 300 - 100 * (i : Int))) with
    | some i => some ⟨zaid / 1000, ((zaid % 1000 : Nat) : Int) - 300 - 100 * (i : Int), some i⟩
    | none => none

/-- `Isotope.get_full_zaid`: `Z*1000 + A`, plus `300 + 100*meta_state`
when the isotope is metastable. -/
def getFullZaid (d : IsoData) : Int :=
  d.Z * 1000 + d.A + (match d.metaState with
    | some m => 300 + 100 * (m : Int)
    | none => 0)

theorem parseZaid_full_roundtrip (zaid : Nat) (d : IsoData)
    (h : parseZaid zaid = some d) : getFullZaid d = zaid := by
  unfold parseZaid at h
  split at h
  · cases h
    simp only [getFullZaid]
    have := Nat.div_add_mod zaid 1000
    push_cast
    omega
  · split at h
    · cases h
      simp only [getFullZaid]
      have := Nat.div_add_mod zaid 1000
      push_cast
      omega
    · cases h

theorem parseZaid_none_iff (zaid : Nat) :
    parseZaid zaid = none ↔
      (¬ isProbablyAnIsotope (zaid / 1000) ((zaid % 1000 : Nat) : Int) ∧
        ∀ i ∈ [(1 : Nat), 2, 3, 4],
          ¬ isProbablyAnIsotope (zaid / 1000)
            (((zaid % 1000 : Nat) : Int) - 300 - 100 * (i : Int))) := by
  unfold parseZaid
  split
  next hiso =>
    constructor
    · intro h
      cases h
    · intro hall
      exact absurd hiso hall.1
  next hiso =>
    split
    next i hfind =>
      have hmem := List.mem_of_find?_eq_some hfind
      have hprop := List.find?_some hfind
      constructor
      · intro h
        cases h
      · intro hall
        have hm : i ∈ [(1 : Nat), 2, 3, 4] := by
          have hr : List.range' 1 4 = [1, 2, 3, 4] := by decide
          rwa [hr] at hmem
        exact absurd (by simpa using hprop) (hall.2 i hm)
    next hfind =>
      rw [List.find?_eq_none] at hfind
      constructor
      · intro _
        refine ⟨by simpa using hiso, fun i hi => ?_⟩
        have hmem : i ∈ List.range' 1 4 := by
          have hr : List.range' 1 4 = [1, 2, 3, 4] := by decide
          rw [hr]
          exact hi
        simpa using hfind i hmem
      · intro _
        rfl

/-- C9: for every ZAID accepted by `_parse_zaid` (metastable encodings
included) `get_full_zaid` returns the original ZAID, and `_parse_zaid`
rejects exactly those ZAIDs whose metastable decoding would need an
isomeric state outside 1..4. -/
theorem zaid_roundtrip_and_rejection (zaid : Nat) :
    (∀ d : IsoData, parseZaid zaid = some d → getFullZaid d = zaid) ∧
      (parseZaid zaid = none ↔
        (¬ isProbablyAnIsotope (zaid / 1000) ((zaid % 1000 : Nat) : Int) ∧
          ∀ i ∈ [(1 : Nat), 2, 3, 4],
            ¬ isProbablyAnIsotope (zaid / 1000)
              (((zaid % 1000 : Nat) : Int) - 300 - 100 * (i : Int)))) :=
  ⟨fun d h => parseZaid_full_roundtrip zaid d h, parseZaid_none_iff zaid⟩

/-- Concrete check of C9: ZAID 95642 (Am-242m1) parses as the metastable
isomer `(Z = 95, A = 242, m = 1)` and rebuilds to 95642. -/
theorem zaid_roundtrip_and_rejection_witness :
    getFullZaid ⟨95, 242, some 1⟩ = (95642 : Nat) :=
  (zaid_roundtrip_and_rejection 95642).1 ⟨95, 242, some 1⟩ (by decide)

/-! ## Geometry half-space algebra (`mcnpy/surfaces/half_space.py`)

`HalfSpace` holds `left`, `operator`, optional `right` and a backing
`GeometryTree` node; `UnitHalfSpace` is the leaf.  The boolean operators
`&`, `|`, `&=`, `|=`, `~` and the tree/operator synchronisation
`_update_operator`/`__switch_operator` are embedded below, Python
exceptions (including the `NameError`s raised by the source's unbound
names) made explicit. -/

/-- The geometry operators of `mcnpy/geometry_operators.py` as used by
`half_space.py`: blank = intersection, `:` = union, `#` = complement,
plus the parser-internal shift. -/
inductive Operator where
  | intersection
  | union
  | complement
  | shift
  deriving DecidableEq, Repr

/-- A half-space expression: `unit` embeds `UnitHalfSpace` (raw divider
identifier, sense flag, is-cell flag), `node` embeds `HalfSpace` (left
operand, operator, optional right operand). -/
inductive HS where
  | unit (divider : Int) (side : Bool) (isCell : Bool)
  | node (left : HS) (op : Operator) (right : Option HS)

/-- A Python value handed to a composition operator: either a
`HalfSpace` instance or some other object (its repr text). -/
inductive PyVal where
  | half (h : HS)
  | nonHalf (descr : String)

/-- `HalfSpace.__invert__`.  Its first statement tests
`isinstance(other, HalfSpace)`, but no name `other` is bound in the
function or module scope, so every call raises `NameError` before the
`HalfSpace(self, Operator.COMPLEMENT)` construction on the following
line can run.  A `UnitHalfSpace` receiver defines no `__invert__` at
all (the class does not inherit from `HalfSpace` in this source), so
`~` on a leaf raises `TypeError` (unsupported operand). -/
def pyInvert : HS → Except PyErr HS
  | .unit .. => .error .typeError
  | .node .. => .error .nameError

/-- `HalfSpace.__and__`: rejects a non-`HalfSpace` right operand with
`TypeError`, otherwise builds `HalfSpace(self, Operator.INTERSECTION,
other)`.  A `UnitHalfSpace` receiver has no `__and__` (no inheritance
in this source), hence `TypeError`. -/
def hsAnd : HS → PyVal → Except PyErr HS
  | .unit .., _ => .error .typeError
  | .node .., .nonHalf _ => .error .typeError
  | .node l op r, .half o => .ok (.node (.node l op r) .intersection (some o))

/-- `HalfSpace.__or__`: as `__and__` with `Operator.UNION`. -/
def hsOr : HS → PyVal → Except PyErr HS
  | .unit .., _ => .error .typeError
  | .node .., .nonHalf _ => .error .typeError
  | .node l op r, .half o => .ok (.node (.node l op r) .union (some o))

/-- Whether the value is a `UnitHalfSpace` (the `isinstance(...,
UnitHalfSpace)` tests of `__iand__`/`__ior__`). -/
def isUnit : HS → Bool
  | .unit .. => true
  | .node .. => false

/-- `HalfSpace.__iand__`, returned as (value the `&=` binding receives,
optional raised exception); on an exception the first component is the
receiver's (unchanged) state.  The type check is the first statement, so
a non-`HalfSpace` right operand raises `TypeError` with the receiver
untouched.  On a `HalfSpace` operand every path also ends in an
exception in this source: a leaf-leaf receiver delegates to `&` on a
`UnitHalfSpace` (`TypeError`, no such method) or to `~` on a leaf
(`TypeError`); otherwise it recurses into `self.right` and, were the
recursion to succeed, would call the nonexistent
`_add_new_children_to_parent` (`AttributeError`). -/
def iandS : HS → PyVal → HS × Option PyErr
  | u@(.unit ..), _ => (u, some .typeError)
  | .node l op r, .nonHalf _ => (.node l op r, some .typeError)
  | .node l op r, .half o =>
    if isUnit l && (match r with | some rr => isUnit rr | none => true) then
      match r with
      | some rr =>
        match hsAnd rr (.half o) with
        | .ok nr => (.node l op (some nr), none)
        | .error e => (.node l op r, some e)
      | none =>
        match pyInvert l with
        | .ok li =>
          match hsAnd li (.half o) with
          | .ok res => (res, none)
          | .error e => (.node l op r, some e)
        | .error e => (.node l op r, some e)
    else
      match r with
      | none => (.node l op r, some .typeError)
      | some rr =>
        match iandS rr (.half o) with
        | (rr2, some e) => (.node l op (some rr2), some e)
        | (rr2, none) => (.node l op (some rr2), some .attributeError)

/-- `HalfSpace.__ior__`: mirror of `__iand__` with `|`; its final
`return sel` (an unbound name) is unreachable because the
`_add_new_children_to_parent` call before it already raises. -/
def iorS : HS → PyVal → HS × Option PyErr
  | u@(.unit ..), _ => (u, some .typeError)
  | .node l op r, .nonHalf _ => (.node l op r, some .typeError)
  | .node l op r, .half o =>
    if isUnit l && (match r with | some rr => isUnit rr | none => true) then
      match r with
      | some rr =>
        match hsOr rr (.half o) with
        | .ok nr => (.node l op (some nr), none)
        | .error e => (.node l op r, some e)
      | none =>
        match pyInvert l with
        | .ok li =>
          match hsOr li (.half o) with
          | .ok res => (res, none)
          | .error e => (.node l op r, some e)
        | .error e => (.node l op r, some e)
    else
      match r with
      | none => (.node l op r, some .typeError)
      | some rr =>
        match iorS rr (.half o) with
        | (rr2, some e) => (.node l op (some rr2), some e)
        | (rr2, none) => (.node l op (some rr2), some .attributeError)

/-- C7: every binary composition operator (`&`, `|`, `&=`, `|=`) on a
`HalfSpace` raises `TypeError` when the right operand is not a
`HalfSpace`, leaving the receiver unchanged (for the in-place forms the
returned receiver state is the original one). -/
theorem composition_rejects_non_halfspace (l : HS) (op : Operator) (r : Option HS)
    (s : String) :
    hsAnd (.node l op r) (.nonHalf s) = .error .typeError ∧
      hsOr (.node l op r) (.nonHalf s) = .error .typeError ∧
      iandS (.node l op r) (.nonHalf s) = (.node l op r, some .typeError) ∧
      iorS (.node l op r) (.nonHalf s) = (.node l op r, some .typeError) :=
  ⟨rfl, rfl, rfl, rfl⟩

/-- C6: `~h` never returns the complement node the source intends; the
unbound name `other` in `__invert__` raises `NameError` on every call. -/
theorem invert_raises_name_error :
    pyInvert (.node (.unit 1 true false) .intersection (some (.unit 2 true false))) =
      .error .nameError := rfl

/-! ### Operator-slot synchronisation (`HalfSpace._update_operator`)

The backing `GeometryTree`'s "operator" entry is a padding node: an
ordered list of text fragments whose `format()` is their concatenation
(spec section 4.2; the padding class itself is outside the source
snapshot).  `_update_operator` reads that text and calls
`__switch_operator` when the stored symbol no longer matches the
semantic operator. -/

/-- One fragment run of the operator slot rendered:
`"".join`-style concatenation. -/
def padFormat (ns : List String) : String := String.mk (ns.map String.data).flatten

/-- Character-level slicing helpers mirroring Python string slices
(`s[:n]`, `s[n:]`, `s[:-1]`); Python slices index code points, so they
act on the character list. -/
def strTake (s : String) (n : Nat) : String := String.mk (s.data.take n)

/-- `s[n:]`. -/
def strDrop (s : String) (n : Nat) : String := String.mk (s.data.drop n)

/-- `s[:-1]`. -/
def strDropLastChar (s : String) : String := String.mk s.data.dropLast

/-- The per-fragment `n.replace("#", " ").replace(":", " ")` of
`__switch_operator`. -/
def replaceOps (s : String) : String :=
  String.mk (s.data.map fun ch => if ch = '#' || ch = ':' then ' ' else ch)

/-- Python `str.isspace()`: nonempty and all whitespace. -/
def pyIsSpace (s : String) : Bool :=
  s.length != 0 && s.data.all Char.isWhitespace

/-- The `for i, node in enumerate(...)` loop of `__switch_operator`:
break at the first fragment where `total_len + len(node) >= midpoint`;
with no break the loop leaves the last index/fragment bound and
`total_len` includes the last fragment; an empty list leaves `i` and
`node` unbound (`none`). -/
def findSlot (mid : Nat) : List String → Nat → Nat → Option (Nat × String × Nat)
  | [], _, _ => none
  | n :: rest, i, tl =>
    if mid ≤ tl + n.length then some (i, n, tl)
    else
      match rest with
      | [] => some (i, n, tl + n.length)
      | _ :: _ => findSlot mid rest (i + 1) (tl + n.length)

/-- `HalfSpace.__switch_operator`: blank out old operator glyphs, place
`#` at the end of the last fragment, or compute the midpoint for `:`.
In the source the midpoint/insertion loop after the `if`/`elif` chain is
not indented under the `elif new_symbol == ":"` branch, so it runs for
every symbol while `midpoint` is assigned only on the `":"` branch: any
other symbol reaches an unbound local name (`NameError`). -/
def switchOperator (ns : List String) (newSymbol : String) : Except PyErr (List String) :=
  let ns1 := ns.map replaceOps
  match (if newSymbol = "#" then
      match ns1.getLast? with
      | none => Except.error PyErr.attributeError
      | some lastFrag => Except.ok (ns1.dropLast ++ [strDropLastChar lastFrag ++ "#"])
    else Except.ok ns1 : Except PyErr (List String)) with
  | .error e => .error e
  | .ok ns2 =>
    match (if newSymbol = ":" then some ((padFormat ns2).length / 2) else none) with
    | none => .error .nameError
    | some mid =>
      match findSlot mid ns2 0 0 with
      | none => .error .nameError
      | some (i, nodeStr, tl) =>
        .ok (ns2.set i (strTake nodeStr (mid - tl) ++ ":" ++ strDrop nodeStr (mid - tl + 1)))

/-- `HalfSpace._update_operator`: compare the slot's rendered text with
the semantic operator and rewrite only on a mismatch (blank text for
intersection, a `:` for union, a `#` for complement; no branch for
shift). -/
def updateOperator (op : Operator) (ns : List String) : Except PyErr (List String) :=
  match op with
  | .intersection =>
      if !(pyIsSpace (padFormat ns)) then switchOperator ns " " else .ok ns
  | .union =>
      if !((padFormat ns).data.contains ':') then switchOperator ns ":" else .ok ns
  | .complement =>
      if !((padFormat ns).data.contains '#') then switchOperator ns "#" else .ok ns
  | .shift => .ok ns

/-- C4: `_update_operator` leaves a matching slot untouched, and the
switch to union works through the midpoint split; but switching the
stored operator to intersection or to complement crashes with
`NameError`, because the source's midpoint/insertion loop is not inside
the `elif new_symbol == ":"` branch while `midpoint` is assigned only
there.  The claimed "rewrite whenever the stored symbol no longer
matches" therefore fails on those paths. -/
theorem update_operator_crashes_on_non_union_switch :
    updateOperator .union [" "] = .ok [":"] ∧
      updateOperator .union [":"] = .ok [":"] ∧
      updateOperator .intersection [" "] = .ok [" "] ∧
      updateOperator .intersection [":"] = .error .nameError ∧
      updateOperator .complement ["#"] = .ok ["#"] ∧
      updateOperator .complement [" "] = .error .nameError :=
  ⟨rfl, rfl, rfl, rfl, rfl, rfl⟩

/-! ### Pointer resolution (`UnitHalfSpace.update_pointers`, `divider`)

`update_pointers(cells, surfaces, cell)` resolves the raw divider
identifier in the cell namespace when the is-cell flag is set and in the
surface namespace otherwise; a missing key raises
`BrokenObjectLinkError("Cell", cell.number, role, divider)` with role
`"Complement"` for cell dividers and `"Surface"` for surface dividers
(the error class lives in `mcnpy/errors.py`, outside the snapshot; its
four arguments are modelled positionally). -/

/-- The owning cell, reduced to the `number` attribute the error path
reads. -/
structure PCell where
  number : Int
  deriving DecidableEq, Repr

/-- The arguments of the `BrokenObjectLinkError` raised by
`UnitHalfSpace.update_pointers`. -/
structure BrokenObjectLinkError where
  parentType : String
  parentNumber : Int
  childType : String
  childNumber : Int
  deriving DecidableEq, Repr

/-- A `UnitHalfSpace` before pointer resolution: raw integer divider,
sense flag, is-cell flag. -/
structure RawUnitHalfSpace where
  divider : Int
  side : Bool
  isCell : Bool
  deriving DecidableEq, Repr

/-- A `UnitHalfSpace` whose divider has been replaced by the resolved
object (`α` stands for the domain object type). -/
structure ResolvedUnitHalfSpace (α : Type) where
  divider : α
  side : Bool
  isCell : Bool
  deriving DecidableEq, Repr

/-- Dictionary lookup `container[key]` on a numbered-object namespace. -/
def nsLookup {α : Type} (ns : List (Int × α)) (k : Int) : Option α :=
  (ns.find? fun p => p.1 = k).map (·.2)

/-- `UnitHalfSpace.update_pointers(cells, surfaces, cell)`. -/
def updatePointersUnit {α : Type} (u : RawUnitHalfSpace)
    (cells surfaces : List (Int × α)) (cell : PCell) :
    Except BrokenObjectLinkError (ResolvedUnitHalfSpace α) :=
  match nsLookup (if u.isCell then cells else surfaces) u.divider with
  | some obj => .ok ⟨obj, u.side, u.isCell⟩
  | none =>
      .error ⟨"Cell", cell.number,
        if u.isCell then "Complement" else "Surface", u.divider⟩

/-- C5 counterexample: for a cell-flagged `UnitHalfSpace` with divider 7
missing from the cell namespace, the raised error's role field is
`"Complement"`, not the `"Cell"` the claim states (and not
`"Surface"`). -/
theorem update_pointers_role_counterexample :
    updatePointersUnit (α := Int) ⟨7, true, true⟩ [] [] ⟨1⟩ =
        .error ⟨"Cell", 1, "Complement", 7⟩ ∧
      ("Complement" ≠ "Cell" ∧ "Complement" ≠ "Surface") :=
  ⟨rfl, by decide, by decide⟩

/-- C5 (amended): an unresolved divider raises a broken-link error
naming the owning cell, the role (`"Complement"` for cell dividers,
`"Surface"` for surface dividers) and the missing identifier; a present
identifier resolves the divider to the found object. -/
theorem update_pointers_resolution {α : Type} (u : RawUnitHalfSpace)
    (cells surfaces : List (Int × α)) (cell : PCell) :
    (nsLookup (if u.isCell then cells else surfaces) u.divider = none →
        updatePointersUnit u cells surfaces cell =
          .error ⟨"Cell", cell.number,
            if u.isCell then "Complement" else "Surface", u.divider⟩) ∧
      (∀ a, nsLookup (if u.isCell then cells else surfaces) u.divider = some a →
        updatePointersUnit u cells surfaces cell = .ok ⟨a, u.side, u.isCell⟩) := by
  constructor
  · intro h
    unfold updatePointersUnit
    rw [h]
  · intro a h
    unfold updatePointersUnit
    rw [h]

/-- Concrete check of C5 (amended), matching the spec's example: divider
5 with sense "outside" and an empty surface namespace raises the
broken-link error naming surface 5. -/
theorem update_pointers_resolution_witness :
    updatePointersUnit (α := Int) ⟨5, true, false⟩ [] [] ⟨2⟩ =
      .error ⟨"Cell", 2, "Surface", 5⟩ :=
  (update_pointers_resolution ⟨5, true, false⟩ [] [] ⟨2⟩).1 rfl

/-- A Python value assigned to the `divider` property: a `Cell`, a
`Surface`, or any other object. -/
inductive DomainObj where
  | cellObj (number : Int)
  | surfObj (number : Int)
  | otherVal (descr : String)
  deriving DecidableEq, Repr

/-- The `isinstance(div, (mcnpy.Cell, Surface))` test of the `divider`
setter.  (`Surface` reaches the module through star imports whose
sources are outside the snapshot; it is modelled as the surface domain
class.) -/
def isinstanceCellOrSurface : DomainObj → Bool
  | .cellObj _ => true
  | .surfObj _ => true
  | .otherVal _ => false

/-- A `UnitHalfSpace` as seen by the `divider` property: the stored
divider is a raw integer or a resolved domain object. -/
structure DivUnitHalfSpace where
  divider : Int ⊕ DomainObj
  side : Bool
  isCell : Bool
  deriving DecidableEq, Repr

/-- The `UnitHalfSpace.divider` setter: raise `TypeError` unless the
value is a `Cell` or `Surface`, else store it.  The check precedes the
assignment, so the error leaves the stored divider unchanged. -/
def dividerSet (u : DivUnitHalfSpace) (d : DomainObj) :
    DivUnitHalfSpace × Option PyErr :=
  if isinstanceCellOrSurface d then ({ u with divider := .inr d }, none)
  else (u, some .typeError)

/-- C10: assigning a non-`Cell`/`Surface` value to `divider` raises
`TypeError` and leaves the stored divider unchanged; assigning a `Cell`
or `Surface` stores that object. -/
theorem divider_setter_typechecks (u : DivUnitHalfSpace) (d : DomainObj) :
    (isinstanceCellOrSurface d = false →
        dividerSet u d = (u, some .typeError) ∧ (dividerSet u d).1 = u) ∧
      (isinstanceCellOrSurface d = true →
        dividerSet u d = ({ u with divider := .inr d }, none)) := by
  constructor
  · intro h
    unfold dividerSet
    rw [h]
    exact ⟨rfl, rfl⟩
  · intro h
    unfold dividerSet
    rw [h]
    rfl

/-- Concrete check of C10: assigning the string `"hi"` to the divider of
a raw leaf raises `TypeError` and keeps the stored divider. -/
theorem divider_setter_typechecks_witness :
    dividerSet ⟨.inl 5, true, false⟩ (.otherVal "hi") =
      (⟨.inl 5, true, false⟩, some .typeError) :=
  ((divider_setter_typechecks ⟨.inl 5, true, false⟩ (.otherVal "hi")).1 rfl).1

/-! ## Line wrapping (`MCNP_Card.wrap_string_for_mcnp`)

`wrap_string_for_mcnp` fetches the version's maximum line length, picks
the initial indent (0 on the first line of a card, the continuation
column otherwise), and hands the string to a greedy word wrapper with
the continuation column as subsequent indent.  The constants module and
the wrapper (`textwrap`) are outside the source snapshot, so both are
modelled from the spec. -/

/-- Modelled from the spec: `get_max_line_length` of the constants
module, absent from the snapshot.  Spec section 6 says the version
controls only the maximum width; the suite's expected table gives 80
for versions from (5, 1, 60) and 128 from (6, 2, 0) upward (version
order is lexicographic), and an unsupported-feature error below
(5, 1, 60). -/
def versionLe (a b : Nat × Nat × Nat) : Bool :=
  a.1 < b.1 || (a.1 = b.1 && (a.2.1 < b.2.1 || (a.2.1 = b.2.1 && a.2.2 ≤ b.2.2)))

/-- Modelled from the spec: the maximum printable line length per MCNP
version. -/
def getMaxLineLength (v : Nat × Nat × Nat) : Except PyErr Nat :=
  if versionLe (6, 2, 0) v then .ok 128
  else if versionLe (5, 1, 60) v then .ok 80
  else .error .unsupported

/-- Modelled from the spec: the fixed continuation-indent column
(`BLANK_SPACE_CONTINUE`). -/
def blankSpaceContinue : Nat := 5

/-- Split a character sequence into whitespace-free words, dropping the
separators (the splitting a greedy text wrapper performs). -/
def splitWords : List Char → List Char → List (List Char)
  | [], acc => if acc.isEmpty then [] else [acc.reverse]
  | c :: cs, acc =>
    if c.isWhitespace then
      if acc.isEmpty then splitWords cs []
      else acc.reverse :: splitWords cs []
    else splitWords cs (c :: acc)

/-- Break one word into chunks of at most `k` characters (the wrapper's
long-word breaking); `k = 0` disables breaking.  The fuel argument of
the worker bounds the recursion by the word length. -/
def chunksWordAux (k : Nat) : Nat → List Char → List (List Char)
  | 0, w => [w]
  | fuel + 1, w =>
    if w.length ≤ k ∨ k = 0 then [w]
    else w.take k :: chunksWordAux k fuel (w.drop k)

/-- Break one word into chunks of at most `k` characters. -/
def chunksWord (k : Nat) (w : List Char) : List (List Char) :=
  chunksWordAux k w.length w

/-- Greedy line filling: `cap` is the remaining capacity of the line
being built (the first line's capacity differs from the rest), `capRest`
the capacity of every later line, `cur` the line under construction;
chunks are joined by single spaces and a chunk that no longer fits
starts a new line. -/
def greedyPack (capRest : Nat) : Nat → List (List Char) → List Char → List (List Char)
  | _, [], cur => if cur.isEmpty then [] else [cur]
  | cap, c :: cs, cur =>
    if cur.isEmpty then greedyPack capRest cap cs c
    else if cur.length + 1 + c.length ≤ cap then
      greedyPack capRest cap cs (cur ++ ' ' :: c)
    else cur :: greedyPack capRest capRest cs c

/-- Modelled from the spec: the wrapping utility.  Content lines are
filled greedily (first-line capacity `width` when unindented, otherwise
`width - ind`; later lines `width - ind`) and every line after the
first — and the first too when `isFirst` is false — is prefixed with
the `ind`-column indent. -/
def wrapChars (width ind : Nat) (isFirst : Bool) (s : List Char) : List (List Char) :=
  match greedyPack (width - ind) (if isFirst then width else width - ind)
      (((splitWords s []).map (chunksWord (width - ind))).flatten) [] with
  | [] => []
  | f :: rest =>
    (if isFirst then f else List.replicate ind ' ' ++ f) ::
      rest.map (fun l => List.replicate ind ' ' ++ l)

/-- `MCNP_Card.wrap_string_for_mcnp(string, mcnp_version,
is_first_line)`. -/
def wrapStringForMcnp (s : String) (v : Nat × Nat × Nat) (isFirst : Bool) :
    Except PyErr (List String) :=
  match getMaxLineLength v with
  | .error e => .error e
  | .ok width =>
      .ok ((wrapChars width blankSpaceContinue isFirst s.data).map String.mk)

/-- `MCNP_Card.wrap_words_for_mcnp`: join the words with single spaces
and wrap the resulting string. -/
def wrapWordsForMcnp (words : List String) (v : Nat × Nat × Nat) (isFirst : Bool) :
    Except PyErr (List String) :=
  wrapStringForMcnp (String.intercalate " " words) v isFirst

/-- Words produced by the splitter are nonempty and whitespace-free. -/
theorem splitWords_sound : ∀ (cs acc : List Char),
    (∀ a ∈ acc, a.isWhitespace = false) →
    ∀ w ∈ splitWords cs acc, w ≠ [] ∧ ∀ c ∈ w, c.isWhitespace = false := by
  intro cs
  induction cs with
  | nil =>
    intro acc hacc w hw
    unfold splitWords at hw
    by_cases he : acc.isEmpty
    · simp [he] at hw
    · simp [he] at hw
      subst hw
      refine ⟨?_, ?_⟩
      · intro hrev
        rw [List.isEmpty_iff] at he
        exact he (by simpa using congrArg List.reverse hrev)
      · intro c hc
        exact hacc c (by simpa using hc)
  | cons x xs ih =>
    intro acc hacc w hw
    unfold splitWords at hw
    by_cases hx : x.isWhitespace
    · rw [if_pos hx] at hw
      by_cases he : acc.isEmpty
      · rw [if_pos he] at hw
        exact ih [] (by intro a ha; cases ha) w hw
      · rw [if_neg he] at hw
        rcases List.mem_cons.mp hw with hfst | hrest
        · subst hfst
          refine ⟨?_, ?_⟩
          · intro hrev
            rw [List.isEmpty_iff] at he
            exact he (by simpa using congrArg List.reverse hrev)
          · intro c hc
            exact hacc c (by simpa using hc)
        · exact ih [] (by intro a ha; cases ha) w hrest
    · rw [if_neg hx] at hw
      refine ih (x :: acc) ?_ w hw
      intro a ha
      rcases List.mem_cons.mp ha with h | h
      · subst h
        exact Bool.eq_false_iff.mpr hx
      · exact hacc a h

/-- Every chunk the worker produces respects the size bound `k` when the
fuel covers the word length. -/
theorem chunksWordAux_length_le (k : Nat) (hk : k ≠ 0) :
    ∀ (fuel : Nat) (w : List Char), w.length ≤ fuel →
      ∀ c ∈ chunksWordAux k fuel w, c.length ≤ k := by
  intro fuel
  induction fuel with
  | zero =>
    intro w hw c hc
    unfold chunksWordAux at hc
    simp at hc
    subst hc
    omega
  | succ n ih =>
    intro w hw c hc
    unfold chunksWordAux at hc
    by_cases hle : w.length ≤ k ∨ k = 0
    · rw [if_pos hle] at hc
      simp at hc
      subst hc
      rcases hle with h | h
      · exact h
      · exact absurd h hk
    · rw [if_neg hle] at hc
      push_neg at hle
      rcases List.mem_cons.mp hc with h | h
      · subst h
        simp
      · refine ih (w.drop k) ?_ c h
        simp only [List.length_drop]
        omega

theorem chunksWord_length_le (k : Nat) (hk : k ≠ 0) (w : List Char) :
    ∀ c ∈ chunksWord k w, c.length ≤ k :=
  chunksWordAux_length_le k hk w.length w le_rfl

/-- Chunks of a nonempty whitespace-free word are nonempty and
whitespace-free. -/
theorem chunksWordAux_sound (k : Nat) (hk : k ≠ 0) :
    ∀ (fuel : Nat) (w : List Char), w ≠ [] → (∀ c ∈ w, c.isWhitespace = false) →
      ∀ ch ∈ chunksWordAux k fuel w, ch ≠ [] ∧ ∀ c ∈ ch, c.isWhitespace = false := by
  intro fuel
  induction fuel with
  | zero =>
    intro w hne hnw ch hch
    unfold chunksWordAux at hch
    simp at hch
    subst hch
    exact ⟨hne, hnw⟩
  | succ n ih =>
    intro w hne hnw ch hch
    unfold chunksWordAux at hch
    by_cases hle : w.length ≤ k ∨ k = 0
    · rw [if_pos hle] at hch
      simp at hch
      subst hch
      exact ⟨hne, hnw⟩
    · rw [if_neg hle] at hch
      push_neg at hle
      rcases List.mem_cons.mp hch with h | h
      · subst h
        refine ⟨?_, ?_⟩
        · intro htake
          have hlen : (w.take k).length = 0 := by rw [htake]; rfl
          simp only [List.length_take] at hlen
          omega
        · intro c hc
          exact hnw c (List.mem_of_mem_take hc)
      · refine ih (w.drop k) ?_ ?_ ch h
        · intro hdrop
          have : (w.drop k).length = 0 := by rw [hdrop]; rfl
          simp only [List.length_drop] at this
          omega
        · intro c hc
          exact hnw c (List.mem_of_mem_drop hc)

/-- Emitted greedy lines fit: every line fits the current capacity and
every line after the first fits the continuation capacity. -/
theorem greedyPack_length_le (capRest : Nat) :
    ∀ (cs : List (List Char)) (cap : Nat) (cur : List Char),
      (∀ c ∈ cs, c.length ≤ capRest) → capRest ≤ cap → cur.length ≤ cap →
      (∀ l ∈ greedyPack capRest cap cs cur, l.length ≤ cap) ∧
        (∀ l ∈ (greedyPack capRest cap cs cur).tail, l.length ≤ capRest) := by
  intro cs
  induction cs with
  | nil =>
    intro cap cur _ _ hcur
    unfold greedyPack
    by_cases he : cur.isEmpty
    · simp [he]
    · rw [if_neg he]
      refine ⟨?_, ?_⟩
      · intro l hl
        simp at hl
        subst hl
        exact hcur
      · intro l hl
        simp at hl
  | cons c cs ih =>
    intro cap cur hcs hcap hcur
    unfold greedyPack
    have hc : c.length ≤ capRest := hcs c (List.mem_cons_self c cs)
    have hcs' : ∀ x ∈ cs, x.length ≤ capRest := fun x hx => hcs x (List.mem_cons_of_mem c hx)
    by_cases he : cur.isEmpty
    · rw [if_pos he]
      exact ih cap c hcs' hcap (le_trans hc hcap)
    · rw [if_neg he]
      by_cases hfit : cur.length + 1 + c.length ≤ cap
      · rw [if_pos hfit]
        refine ih cap (cur ++ ' ' :: c) hcs' hcap ?_
        simp only [List.length_append, List.length_cons]
        omega
      · rw [if_neg hfit]
        have hrec := ih capRest c hcs' le_rfl hc
        refine ⟨?_, ?_⟩
        · intro l hl
          rcases List.mem_cons.mp hl with h | h
          · subst h
            exact hcur
          · exact le_trans (hrec.1 l h) hcap
        · intro l hl
          simp only [List.tail_cons] at hl
          exact hrec.1 l hl

/-- Every emitted greedy line starts with a non-whitespace character,
provided the chunks do. -/
theorem greedyPack_head_nonws (capRest : Nat) :
    ∀ (cs : List (List Char)) (cap : Nat) (cur : List Char),
      (∀ c ∈ cs, c ≠ [] ∧ ∀ ch ∈ c, ch.isWhitespace = false) →
      (cur = [] ∨ ∃ ch t, cur = ch :: t ∧ ch.isWhitespace = false) →
      ∀ l ∈ greedyPack capRest cap cs cur,
        ∃ ch t, l = ch :: t ∧ ch.isWhitespace = false := by
  intro cs
  induction cs with
  | nil =>
    intro cap cur _ hcur l hl
    unfold greedyPack at hl
    by_cases he : cur.isEmpty
    · simp [he] at hl
    · rw [if_neg he] at hl
      simp at hl
      subst hl
      rcases hcur with h | h
      · rw [h] at he
        simp at he
      · exact h
  | cons c cs ih =>
    intro cap cur hcs hcur l hl
    unfold greedyPack at hl
    have hc := hcs c (List.mem_cons_self c cs)
    have hcs' : ∀ x ∈ cs, x ≠ [] ∧ ∀ ch ∈ x, ch.isWhitespace = false :=
      fun x hx => hcs x (List.mem_cons_of_mem c hx)
    have hcP : ∃ ch t, c = ch :: t ∧ ch.isWhitespace = false := by
      rcases c with _ | ⟨ch, t⟩
      · exact absurd rfl hc.1
      · exact ⟨ch, t, rfl, hc.2 ch (List.mem_cons_self ch t)⟩
    by_cases he : cur.isEmpty
    · rw [if_pos he] at hl
      exact ih cap c hcs' (Or.inr hcP) l hl
    · rw [if_neg he] at hl
      by_cases hfit : cur.length + 1 + c.length ≤ cap
      · rw [if_pos hfit] at hl
        refine ih cap (cur ++ ' ' :: c) hcs' ?_ l hl
        rcases hcur with h | h
        · rw [h] at he
          simp at he
        · rcases h with ⟨ch, t, hcur', hch⟩
          exact Or.inr ⟨ch, t ++ ' ' :: c, by rw [hcur']; simp, hch⟩
      · rw [if_neg hfit] at hl
        rcases List.mem_cons.mp hl with h | h
        · subst h
          rcases hcur with h | h
          · rw [h] at he
            simp at he
          · exact h
        · exact ih capRest c hcs' (Or.inr hcP) l h

/-- The version table only ever reports widths 80 and 128. -/
theorem getMaxLineLength_cases (v : Nat × Nat × Nat) (L : Nat)
    (h : getMaxLineLength v = .ok L) : L = 80 ∨ L = 128 := by
  unfold getMaxLineLength at h
  by_cases h1 : versionLe (6, 2, 0) v
  · rw [if_pos h1] at h
    cases h
    right
    rfl
  · rw [if_neg h1] at h
    by_cases h2 : versionLe (5, 1, 60) v
    · rw [if_pos h2] at h
      cases h
      left
      rfl
    · rw [if_neg h2] at h
      cases h

/-- Character-level facts about the wrapper: lines fit `L`, the first
line starts with a non-whitespace character, continuation lines start
with the indent run. -/
theorem wrapChars_spec (L ind : Nat) (hindL : ind ≤ L) (hknz : L - ind ≠ 0)
    (s : List Char) :
    (∀ l ∈ wrapChars L ind true s, l.length ≤ L) ∧
      (∀ l, (wrapChars L ind true s).head? = some l →
        ∃ ch t, l = ch :: t ∧ ch.isWhitespace = false) ∧
      (∀ l ∈ (wrapChars L ind true s).tail,
        l.take ind = List.replicate ind ' ') := by
  have hbound : ∀ c ∈ ((splitWords s []).map (chunksWord (L - ind))).flatten,
      c.length ≤ L - ind := by
    intro c hc
    rcases List.mem_flatten.mp hc with ⟨l, hl, hcl⟩
    rcases List.mem_map.mp hl with ⟨w, _, hwl⟩
    subst hwl
    exact chunksWord_length_le (L - ind) hknz w c hcl
  have hsound : ∀ c ∈ ((splitWords s []).map (chunksWord (L - ind))).flatten,
      c ≠ [] ∧ ∀ ch ∈ c, ch.isWhitespace = false := by
    intro c hc
    rcases List.mem_flatten.mp hc with ⟨l, hl, hcl⟩
    rcases List.mem_map.mp hl with ⟨w, hwmem, hwl⟩
    subst hwl
    have hwspec := splitWords_sound s [] (by intro a ha; cases ha) w hwmem
    exact chunksWordAux_sound (L - ind) hknz w.length w hwspec.1 hwspec.2 c hcl
  have hpacked := greedyPack_length_le (L - ind)
    (((splitWords s []).map (chunksWord (L - ind))).flatten) L [] hbound
    (by omega) (by simp)
  have hheads := greedyPack_head_nonws (L - ind)
    (((splitWords s []).map (chunksWord (L - ind))).flatten) L [] hsound (Or.inl rfl)
  unfold wrapChars
  simp only [reduceIte]
  rcases hpack : greedyPack (L - ind) L
      (((splitWords s []).map (chunksWord (L - ind))).flatten) [] with _ | ⟨f, rest⟩
  · exact ⟨(by intro l h; cases h), (by intro l h; cases h), (by intro l h; cases h)⟩
  · have hfmem : f ∈ greedyPack (L - ind) L
        (((splitWords s []).map (chunksWord (L - ind))).flatten) [] := by
      rw [hpack]
      exact List.mem_cons_self f rest
    have hrestmem : ∀ l ∈ rest, l ∈ (greedyPack (L - ind) L
        (((splitWords s []).map (chunksWord (L - ind))).flatten) []).tail := by
      intro l hl
      rw [hpack]
      exact hl
    refine ⟨?_, ?_, ?_⟩
    · intro l hl
      rcases List.mem_cons.mp hl with h | h
      · rw [h]
        exact hpacked.1 f hfmem
      · rcases List.mem_map.mp h with ⟨l0, hl0, hl0e⟩
        subst hl0e
        have := hpacked.2 l0 (hrestmem l0 hl0)
        simp only [List.length_append, List.length_replicate]
        omega
    · intro l hl
      simp only [List.head?_cons, Option.some.injEq] at hl
      subst hl
      exact hheads f hfmem
    · intro l hl
      simp only [List.tail_cons] at hl
      rcases List.mem_map.mp hl with ⟨l0, _, hl0e⟩
      subst hl0e
      exact List.take_left' (by simp)

/-- C8: wrapped output fits the version's maximum line length (128 for
version (6, 2, 0)); the first line is unindented (it starts with a
non-whitespace character) and every continuation line begins with the
fixed continuation indent. -/
theorem wrap_string_fits (s : String) (v : Nat × Nat × Nat) (L : Nat)
    (ls : List String) (hL : getMaxLineLength v = .ok L)
    (hw : wrapStringForMcnp s v true = .ok ls) :
    (∀ line ∈ ls, line.length ≤ L) ∧
      (∀ line, ls.head? = some line →
        ∃ ch t, line.data = ch :: t ∧ ch.isWhitespace = false) ∧
      (∀ line ∈ ls.tail, strTake line blankSpaceContinue =
        String.mk (List.replicate blankSpaceContinue ' ')) ∧
      getMaxLineLength (6, 2, 0) = .ok 128 := by
  have hL' : L = 80 ∨ L = 128 := getMaxLineLength_cases v L hL
  unfold wrapStringForMcnp at hw
  rw [hL] at hw
  cases hw
  have hbs : blankSpaceContinue = 5 := rfl
  have hspec := wrapChars_spec L blankSpaceContinue (by rw [hbs]; omega)
    (by rw [hbs]; omega) s.data
  refine ⟨?_, ?_, ?_, rfl⟩
  · intro line hline
    rcases List.mem_map.mp hline with ⟨l, hl, hle⟩
    subst hle
    exact hspec.1 l hl
  · intro line hline
    rcases hws : (wrapChars L blankSpaceContinue true s.data) with _ | ⟨f, rest⟩
    · rw [hws] at hline
      cases hline
    · rw [hws] at hline
      simp only [List.map_cons, List.head?_cons, Option.some.injEq] at hline
      subst hline
      refine hspec.2.1 f ?_
      rw [hws]
      rfl
  · intro line hline
    rcases hws : (wrapChars L blankSpaceContinue true s.data) with _ | ⟨f, rest⟩
    · rw [hws] at hline
      cases hline
    · rw [hws] at hline
      simp only [List.map_cons, List.tail_cons] at hline
      rcases List.mem_map.mp hline with ⟨l, hl, hle⟩
      subst hle
      have htl : l ∈ (wrapChars L blankSpaceContinue true s.data).tail := by
        rw [hws]
        exact hl
      have := hspec.2.2 l htl
      unfold strTake
      simp only [String.data]
      rw [this]

/-- Concrete check of C8: a long string wrapped for version (6, 2, 0)
yields a first line within 128 columns. -/
theorem wrap_string_fits_witness :
    (String.length "hello world") ≤ 128 :=
  (wrap_string_fits "hello world" (6, 2, 0) 128 ["hello world"] rfl rfl).1
    "hello world" (List.mem_cons_self _ _)

/-! ## Card formatting (`mcnpy/mcnp_card.py`, `mcnpy/data_cards/data_card.py`)

A card stores the raw `input_lines` read from the file, the `Comment`
objects that preceded it or cut into it, and a `mutated` flag that
starts false for parsed cards.  `DataCardAbstract.format_for_mcnp_input`
re-wraps the words when the card mutated and otherwise returns
`_format_for_mcnp_unmutated`, which replays the preceding comment block
and the stored input lines with each cutting comment restored at its
recorded line index.  (`Comment` itself lives outside the snapshot; it
is modelled by the lines its own `format_for_mcnp_input` returns plus
the `is_cutting_comment`/`card_line` attributes this code reads.) -/

/-- A `Comment` as consumed by `MCNP_Card`: its formatted lines, its
`is_cutting_comment` flag and its `card_line` index. -/
structure PyComment where
  lines : List String
  isCutting : Bool
  cardLine : Nat
  deriving DecidableEq, Repr

/-- The card state the formatting paths read: raw input lines, attached
comments, mutation flag, and the (re-parsed) words used when mutated. -/
structure CardState where
  inputLines : List String
  comments : List PyComment
  mutated : Bool
  words : List String
  deriving DecidableEq, Repr

/-- The `comments_dict` lookup of `_format_for_mcnp_unmutated`: the
cutting comments are inserted into a dict keyed by `card_line` in list
order, so the last cutting comment with a given index wins. -/
def cutAt (cs : List PyComment) (i : Nat) : List String :=
  match (cs.filter (fun c => c.isCutting)).reverse.find? (fun c => c.cardLine = i) with
  | some c => c.lines
  | none => []

/-- The `for i, line in enumerate(self.input_lines)` loop of
`_format_for_mcnp_unmutated`: before the line at index `i`, the lines
of the cutting comment recorded at `i` (if any) are emitted. -/
def emitLines (cs : List PyComment) : Nat → List String → List String
  | _, [] => []
  | i, l :: rest => cutAt cs i ++ l :: emitLines cs (i + 1) rest

/-- `self.comments[0].format_for_mcnp_input(...)` when the comment list
is nonempty (`if self.comments:`). -/
def headerLines (cs : List PyComment) : List String :=
  match cs with
  | [] => []
  | c :: _ => c.lines

/-- `MCNP_Card._format_for_mcnp_unmutated`. -/
def formatUnmutated (c : CardState) : List String :=
  headerLines c.comments ++ emitLines c.comments 0 c.inputLines

/-- The base `MCNP_Card.format_for_mcnp_input` body: with comments
attached it emits the first comment when unmutated and every comment
when mutated. -/
def superFormat (c : CardState) : List String :=
  match c.comments with
  | [] => []
  | _ :: _ =>
    if !c.mutated then headerLines c.comments
    else (c.comments.map (·.lines)).flatten

/-- `DataCardAbstract.format_for_mcnp_input`: the mutated path re-wraps
the card's words after the comment lines; the unmutated path discards
that and returns `_format_for_mcnp_unmutated`. -/
def formatForMcnpInput (c : CardState) (v : Nat × Nat × Nat) :
    Except PyErr (List String) :=
  if c.mutated then
    match wrapWordsForMcnp c.words v true with
    | .ok ls => .ok (superFormat c ++ ls)
    | .error e => .error e
  else .ok (formatUnmutated c)

/-- With no cutting comment registered at any index, the emit loop
returns the stored input lines unchanged. -/
theorem emitLines_no_cuts (cs : List PyComment)
    (h : ∀ i, cutAt cs i = []) : ∀ (i : Nat) (ls : List String),
      emitLines cs i ls = ls := by
  intro i ls
  induction ls generalizing i with
  | nil => rfl
  | cons l rest ih =>
    unfold emitLines
    rw [h i, ih (i + 1)]
    rfl

/-- The stored input lines always occur, in order, inside the emitted
lines. -/
theorem emitLines_sublist (cs : List PyComment) :
    ∀ (i : Nat) (ls : List String), List.Sublist ls (emitLines cs i ls) := by
  intro i ls
  induction ls generalizing i with
  | nil => exact List.Sublist.refl []
  | cons l rest ih =>
    unfold emitLines
    exact List.sublist_append_of_sublist_right ((ih (i + 1)).cons₂ l)

/-- C1: an unmutated card formats by replaying stored raw text: the
result is exactly the preceding comment block followed by the input
lines with cutting comments restored at their recorded indices; the
stored input lines appear in it verbatim and in order, and a card with
no attached comments formats to exactly its stored input lines. -/
theorem unmutated_format_reproduces_input (c : CardState) (v : Nat × Nat × Nat)
    (h : c.mutated = false) :
    formatForMcnpInput c v =
        .ok (headerLines c.comments ++ emitLines c.comments 0 c.inputLines) ∧
      List.Sublist c.inputLines (formatUnmutated c) ∧
      (c.comments = [] → formatForMcnpInput c v = .ok c.inputLines) := by
  refine ⟨?_, ?_, ?_⟩
  · unfold formatForMcnpInput
    rw [h]
    rfl
  · unfold formatUnmutated
    exact List.sublist_append_of_sublist_right (emitLines_sublist c.comments 0 c.inputLines)
  · intro hcom
    unfold formatForMcnpInput
    rw [h]
    simp only [Bool.false_eq_true, if_false]
    unfold formatUnmutated
    rw [hcom]
    have hcut : ∀ i, cutAt ([] : List PyComment) i = [] := by
      intro i
      rfl
    rw [emitLines_no_cuts [] hcut 0 c.inputLines]
    rfl

/-- Concrete check of C1: a two-line card with no comments and an
unset mutation flag formats back to exactly its input lines. -/
theorem unmutated_format_reproduces_input_witness :
    formatForMcnpInput ⟨["1 0 -2 imp:n=1", "c2 like 1 but"], [], false, []⟩ (6, 2, 0) =
      .ok ["1 0 -2 imp:n=1", "c2 like 1 but"] :=
  (unmutated_format_reproduces_input
    ⟨["1 0 -2 imp:n=1", "c2 like 1 but"], [], false, []⟩ (6, 2, 0) rfl).2.2 rfl

/-! ## Shortcut expansion (spec section 4.4)

The shortcut grammar (`nR` repeat, `nM` multiply, `nI`/`nILOG`
interpolate, `nJ` placeholder) is recognised inside numeric lists and
expanded at parse time.  The recogniser lives in the syntax-node module,
which is outside the source snapshot, so the lexer and expander below
are modelled from the spec's table and validation rules; numeric values
are exact rationals (the source computes with floats), and logarithmic
interpolation uses the exact geometric ratio, reporting a ratio that is
not rational as a distinct error. -/

/-- One recognised token of a numeric list with shortcuts. -/
inductive ShortTok where
  | num (q : Rat)
  | rep (n : Option Nat)
  | mult (f : Rat)
  | interp (n : Option Nat)
  | ilog (n : Option Nat)
  | jump (n : Option Nat)
  deriving DecidableEq, Repr

/-- The numeric value of a digit run. -/
def natOfDigits (ds : List Char) : Nat :=
  ds.foldl (fun a c => a * 10 + (c.toNat - 48)) 0

/-- The rational value of a signed decimal literal split into integer
and fractional digit runs. -/
def decimalValue (neg : Bool) (intDs fracDs : List Char) : Rat :=
  let mag : Rat := (natOfDigits intDs : Rat) +
    (natOfDigits fracDs : Rat) / ((10 : Rat) ^ fracDs.length)
  if neg then -mag else mag

/-- Modelled from the spec: lex one whitespace-delimited word of a
numeric list.  A bare number is a value; a digit run (optional) followed
by `R`/`I`/`ILOG`/`J` (case-insensitive) is a shortcut with that count;
`M` requires an explicit leading factor ("multiply with no explicit
factor" is malformed), and counts must be unsigned integers. -/
def lexShortcutWord (w : String) : Except PyErr ShortTok :=
  let cs := w.data
  let neg := match cs with
    | '-' :: _ => true
    | _ => false
  let cs1 := match cs with
    | '-' :: rest => rest
    | '+' :: rest => rest
    | _ => cs
  let intDs := cs1.takeWhile Char.isDigit
  let cs2 := cs1.drop intDs.length
  let fracDs := match cs2 with
    | '.' :: rest => rest.takeWhile Char.isDigit
    | _ => []
  let cs3 := match cs2 with
    | '.' :: rest => rest.drop (rest.takeWhile Char.isDigit).length
    | _ => cs2
  let suffix := String.mk (cs3.map Char.toUpper)
  let hasNum := !(intDs.isEmpty && fracDs.isEmpty)
  let q := decimalValue neg intDs fracDs
  let countOk := !neg && fracDs.isEmpty
  let countOpt : Option Nat := if intDs.isEmpty then none else some (natOfDigits intDs)
  if suffix = "" then
    if hasNum then .ok (.num q) else .error .malformedInput
  else if suffix = "R" then
    if countOk then .ok (.rep countOpt) else .error .malformedInput
  else if suffix = "M" then
    if hasNum then .ok (.mult q) else .error .malformedInput
  else if suffix = "I" then
    if countOk then .ok (.interp countOpt) else .error .malformedInput
  else if suffix = "ILOG" then
    if countOk then .ok (.ilog countOpt) else .error .malformedInput
  else if suffix = "J" then
    if countOk then .ok (.jump countOpt) else .error .malformedInput
  else .error .malformedInput

/-- Lex every word, failing at the first malformed one. -/
def lexAll : List String → Except PyErr (List ShortTok)
  | [] => .ok []
  | w :: ws =>
    match lexShortcutWord w with
    | .error e => .error e
    | .ok t =>
      match lexAll ws with
      | .error e => .error e
      | .ok ts => .ok (t :: ts)

/-- One expanded member of a numeric list: a value or the placeholder
("jump") marker. -/
inductive Entry where
  | val (q : Rat)
  | jump
  deriving DecidableEq, Repr

/-- The largest `r` with `r ^ k ≤ m`. -/
def natRoot (m k : Nat) : Nat :=
  ((List.range (m + 1)).filter fun r => r ^ k ≤ m).foldl max 0

/-- The exact rational `k`-th root of a positive rational, when it
exists. -/
def ratRoot (q : Rat) (k : Nat) : Option Rat :=
  if q ≤ 0 then none
  else
    let n := q.num.toNat
    let d := q.den
    let rn := natRoot n k
    let rd := natRoot d k
    if rn ^ k = n && rd ^ k = d then some ((rn : Rat) / (rd : Rat)) else none

/-- Modelled from the spec: expand a token run.  Repeat/multiply need a
preceding value (a placeholder does not count); interpolations need a
preceding value and a following literal end value, linear ones append
`n` evenly spaced values strictly between the endpoints and `ILOG` the
geometrically spaced ones (endpoints positive); `nJ` appends `n`
placeholder markers.  Counts default to 1. -/
def expandGo : List ShortTok → List Entry → Except PyErr (List Entry)
  | [], acc => .ok acc
  | .num q :: rest, acc => expandGo rest (acc ++ [.val q])
  | .rep n :: rest, acc =>
    match acc.getLast? with
    | some (.val q) => expandGo rest (acc ++ List.replicate (n.getD 1) (.val q))
    | _ => .error .malformedInput
  | .mult f :: rest, acc =>
    match acc.getLast? with
    | some (.val q) => expandGo rest (acc ++ [.val (q * f)])
    | _ => .error .malformedInput
  | .jump n :: rest, acc => expandGo rest (acc ++ List.replicate (n.getD 1) Entry.jump)
  | .interp n :: .num e :: rest, acc =>
    match acc.getLast? with
    | some (.val b) =>
      let k := n.getD 1
      let step := (e - b) / ((k : Rat) + 1)
      expandGo rest
        (acc ++ ((List.range k).map fun j => Entry.val (b + step * ((j : Rat) + 1)))
          ++ [.val e])
    | _ => .error .malformedInput
  | .interp _ :: _, _ => .error .malformedInput
  | .ilog n :: .num e :: rest, acc =>
    match acc.getLast? with
    | some (.val b) =>
      if 0 < b ∧ 0 < e then
        let k := n.getD 1
        match ratRoot (e / b) (k + 1) with
        | some r =>
          expandGo rest
            (acc ++ ((List.range k).map fun j => Entry.val (b * r ^ (j + 1)))
              ++ [.val e])
        | none => .error .inexactRatio
      else .error .malformedInput
    | _ => .error .malformedInput
  | .ilog _ :: _, _ => .error .malformedInput

/-- Parse and expand a numeric list given as raw text. -/
def parseShortcutList (s : String) : Except PyErr (List Entry) :=
  match lexAll ((splitWords s.data []).map String.mk) with
  | .error e => .error e
  | .ok ts => expandGo ts []

/-- C2: the spec's literal shortcut-expansion cases hold, and the two
invalid inputs are malformed at parse time: "2R" has no predecessor and
"10 M" gives the multiply no explicit factor. -/
theorem shortcut_expansion_cases :
    parseShortcutList "1 3M 2r" = .ok [.val 1, .val 3, .val 3, .val 3] ∧
      parseShortcutList "1 2R 2I 2.5" =
        .ok [.val 1, .val 1, .val 1, .val (3 / 2), .val 2, .val (5 / 2)] ∧
      parseShortcutList "1 2j 4" = .ok [.val 1, .jump, .jump, .val 4] ∧
      parseShortcutList "0.01 2ILOG 10" =
        .ok [.val (1 / 100), .val (1 / 10), .val 1, .val 10] ∧
      parseShortcutList "2R" = .error .malformedInput ∧
      parseShortcutList "10 M" = .error .malformedInput := by
  set_option maxRecDepth 4000 in
  refine ⟨?_, ?_, ?_, ?_, ?_, ?_⟩ <;> decide

/-! ## Mutated value re-rendering (spec sections 4.1 and 8)

A mutated `ValueNode` re-renders its new value in the formatting
convention captured from the original token.  The `ValueNode` class
lives in the syntax-node module, outside the source snapshot, so the
convention capture and re-rendering below are modelled from the spec:
a real token's convention is its mantissa decimal count and its
exponent style (explicit `e` marker or the bare sign-concatenated form,
e.g. `1.602-19` for 1.602e-19) with the exponent field width equal to
the original digit count; an integer token contributes its printed
width and explicit `+`, and the new value is right-justified into that
width (a lost sign column becomes a space). -/

/-- The formatting convention captured from a real-typed token. -/
structure FloatConv where
  origNeg : Bool
  decimals : Nat
  hasExp : Bool
  expMarker : Bool
  expDigits : Nat
  deriving DecidableEq, Repr

/-- Modelled from the spec: read the convention out of a real token:
optional sign, integer digits, optional fraction, then an exponent that
is either `e`/`E` (optionally signed) or a bare `+`/`-` glued to the
mantissa. -/
def parseFloatConv (s : String) : Option FloatConv :=
  let cs := s.data
  let neg := match cs with
    | '-' :: _ => true
    | _ => false
  let cs1 := match cs with
    | '-' :: rest => rest
    | '+' :: rest => rest
    | _ => cs
  let intDs := cs1.takeWhile Char.isDigit
  let cs2 := cs1.drop intDs.length
  let fracDs := match cs2 with
    | '.' :: rest => rest.takeWhile Char.isDigit
    | _ => []
  let cs3 := match cs2 with
    | '.' :: rest => rest.drop (rest.takeWhile Char.isDigit).length
    | _ => cs2
  if intDs.isEmpty && fracDs.isEmpty then none
  else
    match cs3 with
    | [] => some ⟨neg, fracDs.length, false, false, 0⟩
    | 'e' :: rest =>
      let rest2 := match rest with
        | '+' :: r => r
        | '-' :: r => r
        | _ => rest
      let eDs := rest2.takeWhile Char.isDigit
      if eDs.isEmpty || !(rest2.drop eDs.length).isEmpty then none
      else some ⟨neg, fracDs.length, true, true, eDs.length⟩
    | 'E' :: rest =>
      let rest2 := match rest with
        | '+' :: r => r
        | '-' :: r => r
        | _ => rest
      let eDs := rest2.takeWhile Char.isDigit
      if eDs.isEmpty || !(rest2.drop eDs.length).isEmpty then none
      else some ⟨neg, fracDs.length, true, true, eDs.length⟩
    | '+' :: rest =>
      let eDs := rest.takeWhile Char.isDigit
      if eDs.isEmpty || !(rest.drop eDs.length).isEmpty then none
      else some ⟨neg, fracDs.length, true, false, eDs.length⟩
    | '-' :: rest =>
      let eDs := rest.takeWhile Char.isDigit
      if eDs.isEmpty || !(rest.drop eDs.length).isEmpty then none
      else some ⟨neg, fracDs.length, true, false, eDs.length⟩
    | _ => none

/-- The normalisation loop for scientific notation: scale into
`[1, 10)` counting the decimal exponent; the fuel bounds the number of
scalings. -/
def sciExpGo : Nat → Rat → Int → Int
  | 0, _, e => e
  | fuel + 1, v, e =>
    if 10 ≤ v then sciExpGo fuel (v / 10) (e + 1)
    else if v < 1 then sciExpGo fuel (v * 10) (e - 1)
    else e

/-- The decimal exponent of a positive rational. -/
def sciExp (v : Rat) : Int := sciExpGo (v.num.natAbs + v.den + 1) v 0

/-- `10 ^ e` over the rationals for an integer exponent. -/
def pow10 (e : Int) : Rat :=
  if 0 ≤ e then ((10 : Rat) ^ e.toNat) else 1 / ((10 : Rat) ^ (-e).toNat)

/-- Left-pad with zeros to the requested width. -/
def padZeros (w : Nat) (s : String) : String :=
  String.mk (List.replicate (w - s.length) '0') ++ s

/-- Render a nonnegative rational with exactly `d` digits after the
decimal point (rounded to nearest). -/
def renderFixed (m : Rat) (d : Nat) : String :=
  let scaled : Int := (m * (10 : Rat) ^ d + 1 / 2).floor
  let n : Nat := scaled.toNat
  let ip := n / 10 ^ d
  let fp := n % 10 ^ d
  if d = 0 then Nat.repr ip
  else Nat.repr ip ++ "." ++ padZeros d (Nat.repr fp)

/-- Modelled from the spec: re-render value `v` in the captured
convention: same decimal count; for exponent-form tokens a normalised
mantissa followed by the exponent in the same style (`e` marker kept,
bare sign form kept) zero-padded to the original exponent digit count;
a sign column lost to a nonnegative value becomes a space. -/
def formatFloatValue (conv : FloatConv) (v : Rat) : String :=
  let signStr := if v < 0 then "-" else if conv.origNeg then " " else ""
  let av := |v|
  if conv.hasExp then
    let e := sciExp av
    let m := av / pow10 e
    let mant := renderFixed m conv.decimals
    let expSign := if e < 0 then "-" else "+"
    let eStr := padZeros conv.expDigits (Nat.repr e.natAbs)
    signStr ++ mant ++ (if conv.expMarker then "e" else "") ++ expSign ++ eStr
  else
    signStr ++ renderFixed av conv.decimals

/-- `ValueNode.format()` for a mutated real-typed node: capture the
original token's convention and re-render the new value in it. -/
def formatFloatNode (token : String) (v : Rat) : Option String :=
  (parseFloatConv token).map fun conv => formatFloatValue conv v

/-- The convention captured from an integer token: printed width,
explicit plus, and leading-zero padding. -/
structure IntConv where
  width : Nat
  plusSign : Bool
  zeroPad : Bool
  deriving DecidableEq, Repr

/-- Modelled from the spec: read the convention out of an integer
token. -/
def parseIntConv (s : String) : Option IntConv :=
  let cs := s.data
  let sign := match cs with
    | '+' :: _ => some '+'
    | '-' :: _ => some '-'
    | _ => none
  let ds := match cs with
    | '+' :: rest => rest
    | '-' :: rest => rest
    | _ => cs
  if ds.isEmpty || !ds.all Char.isDigit then none
  else some ⟨cs.length, sign = some '+', decide (1 < ds.length) && ds.head? = some '0'⟩

/-- Modelled from the spec: right-justify the new integer value to at
least the original token's printed width, preserving an explicit
leading `+` (and leading-zero padding); the lost sign column of a
negative original pads with a space. -/
def formatIntValue (conv : IntConv) (v : Int) : String :=
  let base := (if v < 0 then "-" else if conv.plusSign then "+" else "") ++ Nat.repr v.natAbs
  let padChar := if conv.zeroPad then '0' else ' '
  String.mk (List.replicate (conv.width - base.length) padChar) ++ base

/-- `ValueNode.format()` for a mutated integer-typed node. -/
def formatIntNode (token : String) (v : Int) : Option String :=
  (parseIntConv token).map fun conv => formatIntValue conv v

/-- C3: a real node built from "1.602-19" reassigned 6.02e23 formats as
"6.020+23"; built from "1.602-0019" it formats as "6.020+0023"
(exponent field width preserved); an integer node built from "-1"
reassigned 2 formats as " 2" (sign column preserved as a space). -/
theorem mutated_value_format_preserves_convention :
    formatFloatNode "1.602-19" (602 * 10 ^ 21) = some "6.020+23" ∧
      formatFloatNode "1.602-0019" (602 * 10 ^ 21) = some "6.020+0023" ∧
      formatIntNode "-1" 2 = some " 2" := by
  set_option maxRecDepth 8000 in
  refine ⟨?_, ?_, ?_⟩ <;> decide

end MontePy
